import Mathlib

/-!
Shallow embedding of the sales-analytics pipeline
(`src/utils/file_handler.py`, `src/utils/validator.py`,
`src/utils/api_handler.py`, `src/utils/data_processor.py`).

Strings are handled at the character-list level so that every definition
reduces in the kernel.  Python `int()` / `float()` are modelled on ASCII
input (optional surrounding whitespace, optional sign, digit runs with
single underscores between digits; the special float spellings `inf` and
`nan` are not modelled, no claim depends on them).  Python floats are
modelled by exact rationals, as the specification's "within floating-point
tolerance" sanctions.  A Python function that can raise is modelled with
`Option`: `none` is the raised exception.
-/

/-- ASCII whitespace as stripped by Python's `str.strip()` / `int()` / `float()`. -/
def isSpaceChar (c : Char) : Bool :=
  c = ' ' || c = '\t' || c = '\n' || c = '\r' || c = '\x0b' || c = '\x0c'

/-- Strip leading and trailing whitespace (Python `str.strip()`). -/
def trimChars (l : List Char) : List Char :=
  ((l.dropWhile isSpaceChar).reverse.dropWhile isSpaceChar).reverse

/-- Remove every occurrence of one character (Python `str.replace(c, "")`). -/
def removeChar (x : Char) (l : List Char) : List Char :=
  l.filter (fun c => !(decide (c = x)))

/-- Split on a separator character, keeping empty pieces
(Python `str.split(sep)` with a one-character separator). -/
def splitOnChar (sep : Char) : List Char → List (List Char)
  | [] => [[]]
  | c :: r =>
    match splitOnChar sep r with
    | [] => if c = sep then [[], []] else [[c]]
    | h :: t => if c = sep then [] :: h :: t else (c :: h) :: t

/-- A nonempty run of decimal digits in which a single underscore may stand
between two digits (the digit grammar shared by CPython `int()` and `float()`). -/
def digitRun : List Char → Bool
  | [] => false
  | [c] => c.isDigit
  | c :: '_' :: rest => c.isDigit && digitRun rest
  | c :: rest => c.isDigit && digitRun rest

/-- Value of a digit run, underscores ignored. -/
def digitsToNat (l : List Char) : Nat :=
  (removeChar '_' l).foldl (fun n c => 10 * n + (c.toNat - 48)) 0

/-- Model of CPython `int(s)` on ASCII input: strip whitespace, optional
sign, then a digit run.  `none` is the `ValueError`. -/
def pyInt (l : List Char) : Option Int :=
  match trimChars l with
  | '+' :: r => if digitRun r then some (digitsToNat r : Int) else none
  | '-' :: r => if digitRun r then some (-(digitsToNat r : Int)) else none
  | r => if digitRun r then some (digitsToNat r : Int) else none

/-- Mantissa of a float literal: optional sign already removed by the caller.
Accepts `digits`, `digits.`, `digits.digits`, `.digits`. -/
def floatMantissa (l : List Char) : Option ℚ :=
  match splitOnChar '.' l with
  | [i] => if digitRun i then some (digitsToNat i : ℚ) else none
  | [i, f] =>
    if digitRun i && (f.isEmpty || digitRun f) then
      some ((digitsToNat i : ℚ) + (digitsToNat f : ℚ) / (10 : ℚ) ^ (removeChar '_' f).length)
    else if i.isEmpty && digitRun f then
      some ((digitsToNat f : ℚ) / (10 : ℚ) ^ (removeChar '_' f).length)
    else none
  | _ => none

/-- Signed mantissa. -/
def floatSignedMantissa (l : List Char) : Option ℚ :=
  match l with
  | '+' :: r => floatMantissa r
  | '-' :: r => (floatMantissa r).map (fun q => -q)
  | r => floatMantissa r

/-- Exponent part of a float literal: optional sign, then a digit run. -/
def floatExponent (l : List Char) : Option Int :=
  match l with
  | '+' :: r => if digitRun r then some (digitsToNat r : Int) else none
  | '-' :: r => if digitRun r then some (-(digitsToNat r : Int)) else none
  | r => if digitRun r then some (digitsToNat r : Int) else none

/-- Scale a rational by a power of ten. -/
def scaleByTen (q : ℚ) (e : Int) : ℚ :=
  if 0 ≤ e then q * (10 : ℚ) ^ e.toNat else q / (10 : ℚ) ^ (-e).toNat

/-- The exponent marker of a float literal, either case (Python lower-cases
the input; case elsewhere only affects letters that fail the digit grammar
anyway). -/
def isExpChar (c : Char) : Bool :=
  if c = 'e' then true else if c = 'E' then true else false

/-- Split a float literal at its exponent marker. -/
def splitOnExp : List Char → List (List Char)
  | [] => [[]]
  | c :: r =>
    match splitOnExp r with
    | [] => if isExpChar c then [[], []] else [[c]]
    | h :: t => if isExpChar c then [] :: h :: t else (c :: h) :: t

/-- Model of CPython `float(s)` on ASCII input: strip whitespace, optional
sign, mantissa, optional `e`/`E` exponent.  `none` is the `ValueError`;
the `inf`/`nan` spellings are not modelled. -/
def pyFloat (l : List Char) : Option ℚ :=
  match splitOnExp (trimChars l) with
  | [m] => floatSignedMantissa m
  | [m, ex] =>
    match floatSignedMantissa m, floatExponent ex with
    | some q, some e => some (scaleByTen q e)
    | _, _ => none
  | _ => none

/-! ## Data model -/

/-- A parsed transaction (`parse_transactions` output): all 8 fields present
and typed.  The aggregator functions assume this shape (spec §4.3). -/
structure Tx where
  transactionID : String
  date : String
  productID : String
  productName : String
  quantity : Int
  unitPrice : ℚ
  customerID : String
  region : String
deriving DecidableEq

/-- A raw dict-shaped record as `validator.py` receives it: any of the 8
keys may be absent (`none`). -/
structure SalesRecord where
  transactionID : Option String
  date : Option String
  productID : Option String
  productName : Option String
  quantity : Option Int
  unitPrice : Option ℚ
  customerID : Option String
  region : Option String
deriving DecidableEq

/-- One catalog entry of the product mapping built by
`create_product_mapping` (`api_handler.py`). -/
structure ProductInfo where
  title : String
  category : String
  brand : String
  rating : ℚ
deriving DecidableEq

/-- A transaction annotated by `enrich_sales_data`: the original record plus
the four `API_*` keys the function adds. -/
structure EnrichedTx where
  base : Tx
  api_Category : Option String
  api_Brand : Option String
  api_Rating : Option ℚ
  api_Match : Bool
deriving DecidableEq

/-! ## Parser (`file_handler.py`, `parse_transactions`) -/

/-- Build one record from the split fields of a line (`file_handler.py`
lines 27-43): demand exactly 8 fields, strip commas from `ProductName` then
trim it, parse `Quantity` with `int()` and comma-stripped `UnitPrice` with
`float()`; `none` models the `continue` that skips the line. -/
def parseFields : List (List Char) → Option Tx
  | [tid, dt, pid, pname, qty, price, cid, reg] =>
    match pyInt qty, pyFloat (removeChar ',' price) with
    | some q, some p =>
      some ⟨String.mk tid, String.mk dt, String.mk pid,
            String.mk (trimChars (removeChar ',' pname)), q, p,
            String.mk cid, String.mk reg⟩
    | _, _ => none
  | _ => none

/-- Parse one raw line: split on `|` and build the record. -/
def parseLine (line : String) : Option Tx :=
  parseFields (splitOnChar '|' line.data)

/-- The parsing loop of `parse_transactions`: append the record of every
line `parseLine` accepts, skip the rest. -/
def parse_transactions : List String → List Tx
  | [] => []
  | line :: rest =>
    match parseLine line with
    | some t => t :: parse_transactions rest
    | none => parse_transactions rest

/-! ## Enricher (`api_handler.py`, `enrich_sales_data`) -/

/-- Enrich one transaction (`api_handler.py` lines 104-136).  The guard is
Python's `if numeric_id and numeric_id in product_mapping:`, so a parsed id
of `0` is falsy and never matches.  The product mapping is modelled as the
dict's lookup function.  The `except` arm is unreachable here: every
operation on these typed fields is total. -/
def enrichTx (m : Int → Option ProductInfo) (tx : Tx) : EnrichedTx :=
  match tx.productID.data with
  | 'P' :: rest =>
    match pyInt rest with
    | some n =>
      if n = 0 then ⟨tx, none, none, none, false⟩
      else
        match m n with
        | some info => ⟨tx, some info.category, some info.brand, some info.rating, true⟩
        | none => ⟨tx, none, none, none, false⟩
    | none => ⟨tx, none, none, none, false⟩
  | _ => ⟨tx, none, none, none, false⟩

/-- The enrichment loop: one output record appended per input record (the
`save_enriched_data` file write that follows the loop is a side effect
outside the value semantics). -/
def enrich_sales_data : List Tx → (Int → Option ProductInfo) → List EnrichedTx
  | [], _ => []
  | t :: r, m => enrichTx m t :: enrich_sales_data r m

/-! ## Validator (`validator.py`) -/

/-- Python `str.startswith(c)` for a one-character pattern. -/
def startsWithChar (c : Char) (s : String) : Bool :=
  match s.data with
  | x :: _ => x = c
  | [] => false

/-- All 8 required fields present (`validator.py` line 14). -/
def hasRequired (r : SalesRecord) : Bool :=
  r.transactionID.isSome && r.date.isSome && r.productID.isSome &&
  r.productName.isSome && r.quantity.isSome && r.unitPrice.isSome &&
  r.customerID.isSome && r.region.isSome

/-- The three id checks of `validator.py` lines 17-19 (the fields are known
present when this runs). -/
def idsOk (r : SalesRecord) : Bool :=
  startsWithChar 'T' (r.transactionID.getD "") &&
  startsWithChar 'P' (r.productID.getD "") &&
  startsWithChar 'C' (r.customerID.getD "")

/-- Strict per-record validity of `validate_and_filter` step 1: required
fields, id prefix letters, positive quantity and unit price. -/
def isValidRec (r : SalesRecord) : Bool :=
  hasRequired r && idsOk r &&
  decide (0 < r.quantity.getD 0) && decide (0 < r.unitPrice.getD 0)

/-- Step 1 of `validate_and_filter` as the loop runs it: collect valid
records in order, count the invalid ones. -/
def validLoop : List SalesRecord → List SalesRecord × Nat
  | [] => ([], 0)
  | t :: rest =>
    let p := validLoop rest
    if isValidRec t then (t :: p.1, p.2) else (p.1, p.2 + 1)

/-- Quantity × UnitPrice of a record whose numeric fields are present. -/
def amountOf (r : SalesRecord) : ℚ :=
  ((r.quantity.getD 0 : Int) : ℚ) * r.unitPrice.getD 0

/-- Python's `if region:` truthiness — `None` and the empty string are both
falsy, so only a non-empty region string activates the filter. -/
def regionActive (region : Option String) : Bool :=
  decide (region.getD "" ≠ "")

/-- The region equality test `tx["Region"] == region`. -/
def regionKeep (region : Option String) (r : SalesRecord) : Bool :=
  decide (r.region.getD "" = region.getD "")

/-- `if min_amount is not None or max_amount is not None:`. -/
def amountActive (minA maxA : Option ℚ) : Bool :=
  minA.isSome || maxA.isSome

/-- The inclusive amount-range test of `validator.py` lines 48-49. -/
def amountKeep (minA maxA : Option ℚ) (r : SalesRecord) : Bool :=
  (match minA with
   | none => true
   | some m => decide (m ≤ amountOf r)) &&
  (match maxA with
   | none => true
   | some M => decide (amountOf r ≤ M))

/-- Step 3a: the region filter, applied only when the region argument is
truthy. -/
def applyRegionFilter (region : Option String) (l : List SalesRecord) : List SalesRecord :=
  if regionActive region then l.filter (regionKeep region) else l

/-- Step 3b: the amount filter, applied only when a bound is supplied. -/
def applyAmountFilter (minA maxA : Option ℚ) (l : List SalesRecord) : List SalesRecord :=
  if amountActive minA maxA then l.filter (amountKeep minA maxA) else l

/-- The summary dict of `validate_and_filter` step 4. -/
structure FilterSummary where
  total_input : Nat
  invalid : Nat
  filtered_by_region : Nat
  filtered_by_amount : Nat
  final_count : Nat
deriving DecidableEq

/-- `validate_and_filter` (`validator.py` lines 1-63).  Step 2 prints the
amount range with `min(amounts)` / `max(amounts)`; when no record passed
validation that list is empty and `min` raises `ValueError`, modelled by
`none`. -/
def validate_and_filter (txs : List SalesRecord) (region : Option String)
    (minA maxA : Option ℚ) : Option (List SalesRecord × Nat × FilterSummary) :=
  match validLoop txs with
  | (valid, invalid) =>
    match valid with
    | [] => none
    | v0 :: vrest =>
      let afterR := applyRegionFilter region (v0 :: vrest)
      let afterA := applyAmountFilter minA maxA afterR
      some (afterA, invalid,
        ⟨txs.length, invalid, (v0 :: vrest).length - afterR.length,
         afterR.length - afterA.length, afterA.length⟩)

/-- The lighter check of `validate_transactions`: positive quantity and
unit price, read with `.get(key, 0)` so a missing field counts as 0. -/
def okQtyPrice (r : SalesRecord) : Bool :=
  decide (0 < r.quantity.getD 0) && decide (0 < r.unitPrice.getD 0)

/-- `validate_transactions` (`validator.py` lines 65-84): partition into
(valid, invalid) preserving order. -/
def validate_transactions : List SalesRecord → List SalesRecord × List SalesRecord
  | [] => ([], [])
  | t :: rest =>
    let p := validate_transactions rest
    if okQtyPrice t then (t :: p.1, p.2) else (p.1, t :: p.2)

/-! ## Aggregator (`data_processor.py`) -/

/-- Revenue of one transaction: `Quantity * UnitPrice`. -/
def revenue (t : Tx) : ℚ :=
  (t.quantity : ℚ) * t.unitPrice

/-- `calculate_total_revenue` (`data_processor.py` lines 6-11). -/
def calculate_total_revenue (txs : List Tx) : ℚ :=
  (txs.map revenue).sum

/-- `average_order_value` (`data_processor.py` lines 28-41): guarded 0.0 on
the empty list, else total revenue over the count. -/
def average_order_value (txs : List Tx) : ℚ :=
  match txs with
  | [] => 0
  | _ => calculate_total_revenue txs / (txs.length : ℚ)

/-- First occurrence of each distinct key, in encounter order: the key
sequence a Python `defaultdict` holds after the aggregation loops. -/
def dedupFirst {α : Type} [DecidableEq α] : List α → List α
  | [] => []
  | x :: xs => x :: (dedupFirst xs).filter (fun y => !(decide (y = x)))

/-- Insert into a sorted list, keeping existing order among equals. -/
def insertLe {α : Type} (le : α → α → Bool) (a : α) : List α → List α
  | [] => [a]
  | b :: r => if le a b then a :: b :: r else b :: insertLe le a r

/-- Stable insertion sort, the model of Python's `sorted` / `list.sort`. -/
def insSort {α : Type} (le : α → α → Bool) : List α → List α
  | [] => []
  | a :: r => insertLe le a (insSort le r)

/-- Lexicographic order on character lists: Python string comparison, used
by `sorted(...)` over date keys. -/
def lexLe : List Char → List Char → Bool
  | [], _ => true
  | _ :: _, [] => false
  | a :: as, b :: bs => if a = b then lexLe as bs else decide (a < b)

/-- The per-date accumulator of `daily_sales_trend`, with the customer set
already collapsed to its size. -/
structure DayStat where
  revenue : ℚ
  transaction_count : Nat
  unique_customers : Nat
deriving DecidableEq

/-- The day bucket `daily_sales_trend` builds for one date. -/
def dayStatFor (txs : List Tx) (d : String) : DayStat :=
  ⟨((txs.filter (fun t => decide (t.date = d))).map revenue).sum,
   (txs.filter (fun t => decide (t.date = d))).length,
   (dedupFirst ((txs.filter (fun t => decide (t.date = d))).map Tx.customerID)).length⟩

/-- `daily_sales_trend` (`data_processor.py` lines 174-207): group by date
in first-encounter order, then sort chronologically (string order). -/
def daily_sales_trend (txs : List Tx) : List (String × DayStat) :=
  insSort (fun a b => lexLe a.1.data b.1.data)
    ((dedupFirst (txs.map Tx.date)).map (fun d => (d, dayStatFor txs d)))

/-- The scan of Python's `max(items, key=...)`: keep the current winner
unless a strictly greater revenue appears. -/
def peakScan : (String × DayStat) → List (String × DayStat) → (String × DayStat)
  | best, [] => best
  | best, i :: r => peakScan (if decide (best.2.revenue < i.2.revenue) then i else best) r

/-- `find_peak_sales_day` (`data_processor.py` lines 209-224): `max` over
the daily stats by revenue; on the empty dict `max()` raises `ValueError`,
modelled by `none`. -/
def find_peak_sales_day (txs : List Tx) : Option (String × ℚ × Nat) :=
  match daily_sales_trend txs with
  | [] => none
  | x :: r =>
    let p := peakScan x r
    some (p.1, p.2.revenue, p.2.transaction_count)

/-- Total quantity sold of one product name. -/
def totQty (txs : List Tx) (p : String) : Int :=
  ((txs.filter (fun t => decide (t.productName = p))).map Tx.quantity).sum

/-- Total revenue of one product name. -/
def totRev (txs : List Tx) (p : String) : ℚ :=
  ((txs.filter (fun t => decide (t.productName = p))).map revenue).sum

/-- `low_performing_products` (`data_processor.py` lines 264-298): group by
product name, keep groups with total quantity strictly below the threshold,
sort ascending by total quantity. -/
def low_performing_products (txs : List Tx) (threshold : Int) : List (String × Int × ℚ) :=
  insSort (fun a b => decide (a.2.1 ≤ b.2.1))
    (((dedupFirst (txs.map Tx.productName)).map
        (fun p => (p, totQty txs p, totRev txs p))).filter
      (fun e => decide (e.2.1 < threshold)))

/-- One row of `region_performance`: Region, Sales, Transactions. -/
def regionRow (txs : List Tx) (r : String) : String × ℚ × Nat :=
  (r, ((txs.filter (fun t => decide (t.region = r))).map revenue).sum,
   (txs.filter (fun t => decide (t.region = r))).length)

/-- `region_performance` (`data_processor.py` lines 81-95): group revenue by
region and sort by sales descending.  On the empty list
`pd.DataFrame([])["Quantity"]` raises `KeyError` (the empty frame has no
columns), modelled by `none`. -/
def region_performance (txs : List Tx) : Option (List (String × ℚ × Nat)) :=
  match txs with
  | [] => none
  | _ =>
    some (insSort (fun a b => decide (b.2.1 ≤ a.2.1))
      ((dedupFirst (txs.map Tx.region)).map (regionRow txs)))

/-! ## Concrete inputs used by the checks below -/

/-- The valid "Laptop" record of the spec's `validate_and_filter` scenario
(§8): amount 2 × 1000 = 2000, region North. -/
def sRec1 : SalesRecord :=
  ⟨some "T001", some "2024-12-01", some "P101", some "Laptop",
   some 2, some 1000, some "C001", some "North"⟩

/-- The invalid record of the scenario: `Quantity = 0`. -/
def sRec2 : SalesRecord :=
  ⟨some "T002", some "2024-12-02", some "P102", some "Mouse",
   some 0, some 1500, some "C002", some "South"⟩

/-- The second valid record: amount 1 × 500 = 500, region North. -/
def sRec3 : SalesRecord :=
  ⟨some "T003", some "2024-12-03", some "P103", some "Keyboard",
   some 1, some 500, some "C003", some "North"⟩

/-- The three-record input of the spec's scenario. -/
def scenarioRecords : List SalesRecord := [sRec1, sRec2, sRec3]

/-- A single parsed transaction with revenue 2 × 45000 = 90000. -/
def txLaptop : Tx :=
  ⟨"T001", "2024-12-01", "P101", "Laptop", 2, 45000, "C001", "North"⟩

/-- A transaction whose `ProductID` is `P0`: its numeric suffix parses as
the integer 0. -/
def txP0 : Tx :=
  ⟨"T010", "2024-12-05", "P0", "Cable", 1, 10, "C010", "East"⟩

/-- A catalog entry stored under key 0. -/
def infoZero : ProductInfo := ⟨"Cable", "accessories", "Generic", 4⟩

/-- A product mapping in which 0 is a genuine key. -/
def mapZero : Int → Option ProductInfo :=
  fun n => if n = 0 then some infoZero else none

/-- The triple `validate_and_filter` returns on the scenario input with
region "North" and `min_amount` 1000. -/
def scenarioOut : List SalesRecord × Nat × FilterSummary :=
  ([sRec1], 1, ⟨3, 1, 0, 1, 1⟩)

/-- The triple `validate_and_filter` returns on `[sRec1]` with region
"North" and no amount bounds. -/
def regionOnlyOut : List SalesRecord × Nat × FilterSummary :=
  ([sRec1], 0, ⟨1, 0, 0, 0, 1⟩)

/-! ## List helper lemmas -/

/-- A filter and its complement split a list's length. -/
theorem length_filter_not_add {α : Type} (p : α → Bool) (l : List α) :
    (l.filter p).length + (l.filter (fun a => !(p a))).length = l.length := by
  induction l with
  | nil => rfl
  | cons a t ih =>
    by_cases h : p a = true <;> simp [List.filter_cons, h] <;> omega

/-- A filter and its complement split a mapped sum. -/
theorem sum_filter_not_add {α : Type} (p : α → Bool) (v : α → ℚ) (l : List α) :
    ((l.filter p).map v).sum + ((l.filter (fun a => !(p a))).map v).sum = (l.map v).sum := by
  induction l with
  | nil => simp
  | cons a t ih =>
    by_cases h : p a = true <;> simp [List.filter_cons, h] <;> linarith

/-- Membership in `dedupFirst` is membership in the underlying list. -/
theorem mem_dedupFirst {α : Type} [DecidableEq α] (a : α) (l : List α) :
    a ∈ dedupFirst l ↔ a ∈ l := by
  induction l with
  | nil => simp [dedupFirst]
  | cons x xs ih =>
    by_cases hax : a = x
    · subst hax; simp [dedupFirst]
    · simp [dedupFirst, List.mem_filter, hax, ih]

/-- `dedupFirst` never repeats a key. -/
theorem nodup_dedupFirst {α : Type} [DecidableEq α] (l : List α) :
    (dedupFirst l).Nodup := by
  induction l with
  | nil => simp [dedupFirst]
  | cons x xs ih =>
    simp only [dedupFirst, List.nodup_cons]
    refine ⟨fun hx => ?_, ih.filter _⟩
    have := (List.mem_filter.mp hx).2
    simp at this

/-- Inserting into a list is a permutation of consing. -/
theorem perm_insertLe {α : Type} (le : α → α → Bool) (a : α) (l : List α) :
    (insertLe le a l).Perm (a :: l) := by
  induction l with
  | nil => rfl
  | cons b r ih =>
    by_cases h : le a b = true
    · simp [insertLe, h]
    · simp only [insertLe, h, if_false]
      exact (ih.cons b).trans (List.Perm.swap a b r)

/-- Insertion sort permutes its input. -/
theorem perm_insSort {α : Type} (le : α → α → Bool) (l : List α) :
    (insSort le l).Perm l := by
  induction l with
  | nil => rfl
  | cons a r ih => exact (perm_insertLe le a (insSort le r)).trans (ih.cons a)

/-- Inserting into a sorted list keeps it sorted, for a total transitive
comparison. -/
theorem pairwise_insertLe {α : Type} (le : α → α → Bool)
    (htot : ∀ a b, le a b = true ∨ le b a = true)
    (htrans : ∀ a b c, le a b = true → le b c = true → le a c = true)
    (a : α) (l : List α) (h : l.Pairwise (fun x y => le x y = true)) :
    (insertLe le a l).Pairwise (fun x y => le x y = true) := by
  induction l with
  | nil => simp [insertLe]
  | cons b r ih =>
    rcases List.pairwise_cons.mp h with ⟨hb, hr⟩
    by_cases hab : le a b = true
    · simp only [insertLe, hab, if_true]
      refine List.pairwise_cons.mpr ⟨?_, h⟩
      intro x hx
      rcases List.mem_cons.mp hx with rfl | hx
      · exact hab
      · exact htrans a b x hab (hb x hx)
    · simp only [insertLe, hab, if_false]
      refine List.pairwise_cons.mpr ⟨?_, ih hr⟩
      intro x hx
      rcases List.mem_cons.mp ((perm_insertLe le a r).mem_iff.mp hx) with rfl | hxr
      · rcases htot x b with h1 | h1
        · exact absurd h1 hab
        · exact h1
      · exact hb x hxr

/-- Insertion sort sorts, for a total transitive comparison. -/
theorem pairwise_insSort {α : Type} (le : α → α → Bool)
    (htot : ∀ a b, le a b = true ∨ le b a = true)
    (htrans : ∀ a b c, le a b = true → le b c = true → le a c = true)
    (l : List α) :
    (insSort le l).Pairwise (fun x y => le x y = true) := by
  induction l with
  | nil => simp [insSort]
  | cons a r ih => exact pairwise_insertLe le htot htrans a (insSort le r) ih

/-- Summing each first-occurrence key group sums the whole list: the
grouping invariant behind every aggregator. -/
theorem sum_over_groups {α κ : Type} [DecidableEq κ] (key : α → κ) (v : α → ℚ)
    (l : List α) :
    ((dedupFirst (l.map key)).map
      (fun k => ((l.filter (fun x => decide (key x = k))).map v).sum)).sum
      = (l.map v).sum := by
  induction l with
  | nil => simp [dedupFirst]
  | cons a t ih =>
    have hga : ((a :: t).filter (fun x => decide (key x = key a))).map v
        = v a :: ((t.filter (fun x => decide (key x = key a))).map v) := by
      simp [List.filter_cons]
    have hgk : ∀ k ∈ (dedupFirst (t.map key)).filter (fun y => !(decide (y = key a))),
        (((a :: t).filter (fun x => decide (key x = k))).map v).sum
          = ((t.filter (fun x => decide (key x = k))).map v).sum := by
      intro k hk
      have hne : ¬ (k = key a) := by
        have := (List.mem_filter.mp hk).2
        simpa using this
      have : ¬ (key a = k) := fun h => hne h.symm
      simp [List.filter_cons, this]
    have hsplit : ((t.filter (fun x => decide (key x = key a))).map v).sum
        + (((dedupFirst (t.map key)).filter (fun y => !(decide (y = key a)))).map
            (fun k => ((t.filter (fun x => decide (key x = k))).map v).sum)).sum
        = ((dedupFirst (t.map key)).map
            (fun k => ((t.filter (fun x => decide (key x = k))).map v).sum)).sum := by
      by_cases hmem : key a ∈ dedupFirst (t.map key)
      · have hnd := nodup_dedupFirst (t.map key)
        have hperm := List.perm_cons_erase hmem
        have herase : (dedupFirst (t.map key)).erase (key a)
            = (dedupFirst (t.map key)).filter (fun y => !(decide (y = key a))) := by
          rw [hnd.erase_eq_filter]
          have hfun : (fun x : κ => x != key a) = (fun y : κ => !(decide (y = key a))) := by
            funext y
            by_cases h : y = key a <;> simp [h]
          rw [hfun]
        rw [herase] at hperm
        have := (hperm.map
          (fun k => ((t.filter (fun x => decide (key x = k))).map v).sum)).sum_eq
        rw [this]
        simp
      · have hnot : key a ∉ t.map key := fun h => hmem ((mem_dedupFirst _ _).mpr h)
        have hzero : t.filter (fun x => decide (key x = key a)) = [] := by
          refine List.filter_eq_nil_iff.mpr ?_
          intro x hx
          simp only [decide_eq_true_eq]
          intro hkey
          exact hnot (hkey ▸ List.mem_map_of_mem key hx)
        have hself : (dedupFirst (t.map key)).filter (fun y => !(decide (y = key a)))
            = dedupFirst (t.map key) := by
          refine List.filter_eq_self.mpr ?_
          intro y hy
          simp only [Bool.not_eq_eq_eq_not, Bool.not_true, decide_eq_false_iff_not]
          intro hyk
          exact hmem (hyk ▸ hy)
        rw [hzero, hself]
        simp
    calc ((dedupFirst ((a :: t).map key)).map
          (fun k => (((a :: t).filter (fun x => decide (key x = k))).map v).sum)).sum
        = (((a :: t).filter (fun x => decide (key x = key a))).map v).sum
          + (((dedupFirst (t.map key)).filter (fun y => !(decide (y = key a)))).map
              (fun k => (((a :: t).filter (fun x => decide (key x = k))).map v).sum)).sum := by
          simp [dedupFirst]
      _ = (v a + ((t.filter (fun x => decide (key x = key a))).map v).sum)
          + (((dedupFirst (t.map key)).filter (fun y => !(decide (y = key a)))).map
              (fun k => ((t.filter (fun x => decide (key x = k))).map v).sum)).sum := by
          rw [hga, List.map_congr_left hgk]
          simp
      _ = v a + (((t.filter (fun x => decide (key x = key a))).map v).sum
          + (((dedupFirst (t.map key)).filter (fun y => !(decide (y = key a)))).map
              (fun k => ((t.filter (fun x => decide (key x = k))).map v).sum)).sum) := by
          ring
      _ = v a + ((dedupFirst (t.map key)).map
            (fun k => ((t.filter (fun x => decide (key x = k))).map v).sum)).sum := by
          rw [hsplit]
      _ = v a + (t.map v).sum := by rw [ih]
      _ = ((a :: t).map v).sum := by simp

/-! ## Loop characterizations -/

/-- The validation loop of `validate_and_filter` collects exactly the
records passing `isValidRec`, in order, and counts the rest. -/
theorem validLoop_eq (txs : List SalesRecord) :
    validLoop txs
      = (txs.filter isValidRec, (txs.filter (fun t => !(isValidRec t))).length) := by
  induction txs with
  | nil => rfl
  | cons t rest ih =>
    by_cases h : isValidRec t = true <;>
      simp [validLoop, ih, List.filter_cons, h]

/-- `validate_transactions` returns the two complementary filters, in
order. -/
theorem validate_transactions_eq (txs : List SalesRecord) :
    validate_transactions txs
      = (txs.filter okQtyPrice, txs.filter (fun t => !(okQtyPrice t))) := by
  induction txs with
  | nil => rfl
  | cons t rest ih =>
    by_cases h : okQtyPrice t = true <;>
      simp [validate_transactions, ih, List.filter_cons, h]

/-- The enrichment loop is a map. -/
theorem enrich_eq_map (txs : List Tx) (m : Int → Option ProductInfo) :
    enrich_sales_data txs m = txs.map (enrichTx m) := by
  induction txs with
  | nil => rfl
  | cons t rest ih => simp [enrich_sales_data, ih]

/-- The parsing loop is a filterMap. -/
theorem parse_eq_filterMap (lines : List String) :
    parse_transactions lines = lines.filterMap parseLine := by
  induction lines with
  | nil => rfl
  | cons line rest ih =>
    cases h : parseLine line <;>
      simp [parse_transactions, h, ih, List.filterMap_cons]

/-! ## Claim theorems -/

/-- C1 counterexample: `find_peak_sales_day([])` does not return an
empty/zeroed result — `max()` over the empty daily dict raises
`ValueError`, which the embedding models as `none`. -/
theorem c1_peak_empty_raises : find_peak_sales_day ([] : List Tx) = none := rfl

/-- C1 (amended): on the empty transaction list, `calculate_total_revenue`,
`average_order_value`, `low_performing_products` and `daily_sales_trend`
return zeroed/empty results without raising, while `find_peak_sales_day`
raises `ValueError` (modelled as `none`) instead of yielding a result. -/
theorem c1_empty_aggregators :
    calculate_total_revenue ([] : List Tx) = 0
    ∧ average_order_value ([] : List Tx) = 0
    ∧ (∀ th : Int, low_performing_products ([] : List Tx) th = [])
    ∧ daily_sales_trend ([] : List Tx) = []
    ∧ find_peak_sales_day ([] : List Tx) = none :=
  ⟨rfl, rfl, fun _ => rfl, rfl, rfl⟩

/-- C3 counterexample: on the empty input list `validate_and_filter` does
not return the triple — step 2 computes `min`/`max` of the empty amounts
list and raises `ValueError`, modelled as `none`. -/
theorem c3_empty_input_raises :
    validate_and_filter [] none none none = none := rfl

/-- C3 (amended): `validate_and_filter` returns the triple exactly when at
least one record passes strict validation; when none does (in particular on
the empty list) the `min`/`max` range print of step 2 raises `ValueError`. -/
theorem c3_returns_iff_valid :
    ∀ (txs : List SalesRecord) (region : Option String) (minA maxA : Option ℚ),
      (validate_and_filter txs region minA maxA).isSome = true
        ↔ ∃ r ∈ txs, isValidRec r = true := by
  intro txs region minA maxA
  simp only [validate_and_filter, validLoop_eq]
  cases h : txs.filter isValidRec with
  | nil =>
    simp only [h, Option.isSome_none]
    constructor
    · intro hfalse
      exact absurd hfalse (by simp)
    · rintro ⟨r, hr, hv⟩
      have : r ∈ txs.filter isValidRec := List.mem_filter.mpr ⟨hr, hv⟩
      rw [h] at this
      exact absurd this (List.not_mem_nil r)
  | cons v0 vrest =>
    simp only [h, Option.isSome_some, true_iff]
    have : v0 ∈ txs.filter isValidRec := by rw [h]; exact List.mem_cons_self v0 vrest
    rcases List.mem_filter.mp this with ⟨hmem, hval⟩
    exact ⟨v0, hmem, hval⟩

/-- C7: enrichment is cardinality-preserving and per-record: it maps each
input transaction, in order, to exactly one enriched record, for every
transaction list and every product mapping. -/
theorem c7_enrich_cardinality :
    ∀ (txs : List Tx) (m : Int → Option ProductInfo),
      enrich_sales_data txs m = txs.map (enrichTx m)
      ∧ (enrich_sales_data txs m).length = txs.length := by
  intro txs m
  refine ⟨enrich_eq_map txs m, ?_⟩
  rw [enrich_eq_map]
  exact List.length_map txs (enrichTx m)

/-- C9: `validate_transactions` is a pure partition: valid records are
exactly those with positive quantity and unit price (missing fields read as
0), both outputs are order-preserving sublists, and counting shows each
record lands in exactly one side. -/
theorem c9_partition :
    ∀ txs : List SalesRecord,
      (validate_transactions txs).1 = txs.filter okQtyPrice
      ∧ (validate_transactions txs).2 = txs.filter (fun t => !(okQtyPrice t))
      ∧ (∀ r, r ∈ (validate_transactions txs).1
            ↔ r ∈ txs ∧ (0 < r.quantity.getD 0 ∧ 0 < r.unitPrice.getD 0))
      ∧ (∀ r, r ∈ (validate_transactions txs).2
            ↔ r ∈ txs ∧ ¬(0 < r.quantity.getD 0 ∧ 0 < r.unitPrice.getD 0))
      ∧ (validate_transactions txs).1.Sublist txs
      ∧ (validate_transactions txs).2.Sublist txs
      ∧ (∀ r, (validate_transactions txs).1.count r
            + (validate_transactions txs).2.count r = txs.count r) := by
  intro txs
  rw [validate_transactions_eq]
  refine ⟨rfl, rfl, ?_, ?_, List.filter_sublist txs, List.filter_sublist txs, ?_⟩
  · intro r
    simp [List.mem_filter, okQtyPrice]
  · intro r
    simp only [List.mem_filter, okQtyPrice, Bool.not_eq_true', Bool.and_eq_false_iff,
      decide_eq_false_iff_not, not_lt]
    constructor
    · rintro ⟨hr, h⟩
      refine ⟨hr, fun hc => ?_⟩
      rcases h with h1 | h2
      · exact absurd hc.1 (not_lt.mpr h1)
      · exact absurd hc.2 (not_lt.mpr h2)
    · rintro ⟨hr, h⟩
      refine ⟨hr, ?_⟩
      by_cases h1 : 0 < r.quantity.getD 0
      · by_cases h2 : 0 < r.unitPrice.getD 0
        · exact absurd ⟨h1, h2⟩ h
        · exact Or.inr (not_lt.mp h2)
      · exact Or.inl (not_lt.mp h1)
  · intro r
    dsimp only
    by_cases h : okQtyPrice r = true
    · have hnot : r ∉ List.filter (fun t => !(okQtyPrice t)) txs := by
        intro hmem
        have := (List.mem_filter.mp hmem).2
        rw [h] at this
        exact absurd this (by simp)
      rw [List.count_filter h, List.count_eq_zero_of_not_mem hnot, Nat.add_zero]
    · have hnot : r ∉ List.filter okQtyPrice txs := by
        intro hmem
        exact absurd ((List.mem_filter.mp hmem).2) h
      rw [@List.count_filter _ _ _ (fun t => !(okQtyPrice t)) r txs (by simp [h]),
        List.count_eq_zero_of_not_mem hnot, Nat.zero_add]

/-- Case analysis of `enrichTx`: either the lookup succeeds (`P` prefix,
integer suffix, nonzero by Python truthiness, key present) and the record
carries the copied fields, or the record is the all-null unmatched one and
no such lookup existed. -/
theorem enrichTx_cases (m : Int → Option ProductInfo) (tx : Tx) :
    (∃ rest n info, tx.productID.data = 'P' :: rest ∧ pyInt rest = some n
        ∧ n ≠ 0 ∧ m n = some info
        ∧ enrichTx m tx = ⟨tx, some info.category, some info.brand, some info.rating, true⟩)
    ∨ (enrichTx m tx = ⟨tx, none, none, none, false⟩
        ∧ ¬ ∃ rest n info, tx.productID.data = 'P' :: rest ∧ pyInt rest = some n
            ∧ n ≠ 0 ∧ m n = some info) := by
  unfold enrichTx
  split
  case h_1 rest heq =>
    cases hpy : pyInt rest with
    | none =>
      right
      refine ⟨rfl, ?_⟩
      rintro ⟨rest2, n, info, hd2, hpy2, hne, hm⟩
      rw [heq] at hd2
      cases hd2
      rw [hpy] at hpy2
      exact Option.noConfusion hpy2
    | some n =>
      by_cases hz : n = 0
      · subst hz
        right
        refine ⟨by simp, ?_⟩
        rintro ⟨rest2, n2, info, hd2, hpy2, hne, hm⟩
        rw [heq] at hd2
        cases hd2
        rw [hpy] at hpy2
        cases hpy2
        exact hne rfl
      · cases hm : m n with
        | none =>
          right
          refine ⟨by simp [hz, hm], ?_⟩
          rintro ⟨rest2, n2, info, hd2, hpy2, hne2, hm2⟩
          rw [heq] at hd2
          cases hd2
          rw [hpy] at hpy2
          cases hpy2
          rw [hm] at hm2
          exact Option.noConfusion hm2
        | some info =>
          left
          exact ⟨rest, n, info, heq, hpy, hz, hm, by simp [hz, hm]⟩
  case h_2 hne =>
    right
    refine ⟨rfl, ?_⟩
    rintro ⟨rest, n, info, hd, hpy, hz, hm⟩
    exact hne rest hd

/-- C2 counterexample: for `ProductID = "P0"` with `0` a key of the mapping,
the lookup succeeds in the claim's sense (prefix `P`, integer suffix, key
present) yet `API_Match` is `false` — Python's `if numeric_id and ...:`
treats the parsed id 0 as falsy. -/
theorem c2_zero_id_counterexample :
    txP0.productID = "P0"
    ∧ pyInt (txP0.productID.data.drop 1) = some 0
    ∧ (mapZero 0).isSome = true
    ∧ (enrichTx mapZero txP0).api_Match = false :=
  ⟨rfl, by decide, rfl, by decide⟩

/-- C2 (amended): `enrichTx` marks a record matched exactly when `ProductID`
starts with `P`, the rest parses as an integer that is nonzero (Python's
truthiness of the id) and is a key of the mapping; on match the three
`API_*` fields are copied from the mapping entry, otherwise all three are
null and `API_Match` is false; the underlying record is never altered and
no exception propagates. -/
theorem c2_enrich_match_semantics :
    ∀ (m : Int → Option ProductInfo) (tx : Tx),
      (enrichTx m tx).base = tx
      ∧ ((enrichTx m tx).api_Match = true
          ↔ ∃ rest n info, tx.productID.data = 'P' :: rest ∧ pyInt rest = some n
              ∧ n ≠ 0 ∧ m n = some info)
      ∧ (∀ rest n info, tx.productID.data = 'P' :: rest → pyInt rest = some n →
          n ≠ 0 → m n = some info →
          enrichTx m tx = ⟨tx, some info.category, some info.brand, some info.rating, true⟩)
      ∧ ((enrichTx m tx).api_Match = false → enrichTx m tx = ⟨tx, none, none, none, false⟩) := by
  intro m tx
  rcases enrichTx_cases m tx with
    ⟨rest, n, info, hd, hpy, hz, hm, heq⟩ | ⟨heq, hnone⟩
  · refine ⟨by rw [heq], ?_, ?_, ?_⟩
    · rw [heq]
      simp only [true_iff]
      exact ⟨rest, n, info, hd, hpy, hz, hm⟩
    · intro rest2 n2 info2 hd2 hpy2 hz2 hm2
      rw [hd] at hd2
      cases hd2
      rw [hpy] at hpy2
      cases hpy2
      rw [hm] at hm2
      cases hm2
      exact heq
    · intro hfalse
      rw [heq] at hfalse
      exact absurd hfalse (by simp)
  · refine ⟨by rw [heq], ?_, ?_, fun _ => heq⟩
    · rw [heq]
      exact iff_of_false (by simp) hnone
    · intro rest2 n2 info2 hd2 hpy2 hz2 hm2
      exact absurd ⟨rest2, n2, info2, hd2, hpy2, hz2, hm2⟩ hnone

/-- `parseFields` succeeds exactly on an 8-field split whose `Quantity`
field parses as an integer and whose comma-stripped `UnitPrice` field
parses as a float. -/
theorem parseFields_shape (ps : List (List Char)) :
    (parseFields ps).isSome = true
      ↔ (ps.length = 8 ∧ (pyInt (ps.getD 4 [])).isSome = true
         ∧ (pyFloat (removeChar ',' (ps.getD 5 []))).isSome = true) := by
  rcases ps with _ | ⟨f0, _ | ⟨f1, _ | ⟨f2, _ | ⟨f3, _ | ⟨f4, _ | ⟨f5, _ | ⟨f6, _ |
    ⟨f7, _ | ⟨f8, rest⟩⟩⟩⟩⟩⟩⟩⟩⟩ <;>
    simp [parseFields, List.getD] <;>
    cases hq : pyInt f4 <;> cases hp : pyFloat (removeChar ',' f5) <;> simp [hq, hp]

/-- C6: `parse_transactions` keeps, in input order, exactly one record per
line that splits on `|` into 8 fields with an integer `Quantity` and a
comma-stripped decimal `UnitPrice`; every other line is skipped silently;
`ProductName` is comma-stripped and trimmed; the spec's example line parses
to the expected record with `UnitPrice` 45000. -/
theorem c6_parse_semantics :
    (∀ lines : List String, parse_transactions lines = lines.filterMap parseLine)
    ∧ (∀ line : String,
        (parseLine line).isSome = true
          ↔ ((splitOnChar '|' line.data).length = 8
             ∧ (pyInt ((splitOnChar '|' line.data).getD 4 [])).isSome = true
             ∧ (pyFloat (removeChar ',' ((splitOnChar '|' line.data).getD 5 []))).isSome = true))
    ∧ parseLine "T001|2024-12-01|P101|Laptop|2|45,000|C001|North"
        = some ⟨"T001", "2024-12-01", "P101", "Laptop", 2, 45000, "C001", "North"⟩ := by
  refine ⟨parse_eq_filterMap, ?_, by decide⟩
  intro line
  exact parseFields_shape (splitOnChar '|' line.data)

/-- C8: `low_performing_products` returns exactly the product-name groups
whose total quantity is strictly below the threshold (the boundary is
excluded), each entry carrying the group's total quantity and revenue, one
entry per product, sorted ascending by total quantity. -/
theorem c8_low_performers :
    ∀ (txs : List Tx) (threshold : Int),
      (∀ e : String × Int × ℚ,
        e ∈ low_performing_products txs threshold
          ↔ (e.1 ∈ txs.map Tx.productName ∧ e.2.1 = totQty txs e.1
             ∧ e.2.2 = totRev txs e.1 ∧ e.2.1 < threshold))
      ∧ ((low_performing_products txs threshold).map (fun e => e.1)).Nodup
      ∧ (low_performing_products txs threshold).Pairwise (fun a b => a.2.1 ≤ b.2.1) := by
  intro txs th
  have hperm := perm_insSort (fun a b : String × Int × ℚ => decide (a.2.1 ≤ b.2.1))
    (((dedupFirst (txs.map Tx.productName)).map
        (fun p => (p, totQty txs p, totRev txs p))).filter
      (fun e => decide (e.2.1 < th)))
  refine ⟨?_, ?_, ?_⟩
  · intro e
    rw [low_performing_products, hperm.mem_iff, List.mem_filter]
    constructor
    · rintro ⟨hbase, hth⟩
      rcases List.mem_map.mp hbase with ⟨p, hp, hpe⟩
      subst hpe
      exact ⟨(mem_dedupFirst p (txs.map Tx.productName)).mp hp, rfl, rfl, by simpa using hth⟩
    · rintro ⟨hmem, hq, hr, hth⟩
      refine ⟨?_, by simpa using hth⟩
      refine List.mem_map.mpr ⟨e.1, (mem_dedupFirst e.1 (txs.map Tx.productName)).mpr hmem, ?_⟩
      rw [← hq, ← hr]
  · have hmap := hperm.map (fun e : String × Int × ℚ => e.1)
    rw [low_performing_products, hmap.nodup_iff]
    have hsub : ((((dedupFirst (txs.map Tx.productName)).map
          (fun p => (p, totQty txs p, totRev txs p))).filter
        (fun e => decide (e.2.1 < th))).map (fun e => e.1)).Sublist
        (((dedupFirst (txs.map Tx.productName)).map
          (fun p => (p, totQty txs p, totRev txs p))).map (fun e => e.1)) :=
      (List.filter_sublist _).map _
    have hbase : (((dedupFirst (txs.map Tx.productName)).map
          (fun p => (p, totQty txs p, totRev txs p))).map (fun e => e.1))
        = dedupFirst (txs.map Tx.productName) := by
      rw [List.map_map]
      exact List.map_id _
    refine List.Nodup.sublist hsub ?_
    rw [hbase]
    exact nodup_dedupFirst _
  · rw [low_performing_products]
    have hpw := pairwise_insSort (fun a b : String × Int × ℚ => decide (a.2.1 ≤ b.2.1))
      (fun a b => by simpa using le_total a.2.1 b.2.1)
      (fun a b c h1 h2 => by
        simp only [decide_eq_true_eq] at h1 h2 ⊢
        exact le_trans h1 h2)
      (((dedupFirst (txs.map Tx.productName)).map
          (fun p => (p, totQty txs p, totRev txs p))).filter
        (fun e => decide (e.2.1 < th)))
    exact hpw.imp (fun h => by simpa using h)

/-- C4: whenever `region_performance` returns, the Sales column sums to
`calculate_total_revenue` of the same set, the region keys are distinct,
and every transaction's region owns exactly one row. -/
theorem c4_region_sum_partition :
    ∀ (txs : List Tx) (rows : List (String × ℚ × Nat)),
      region_performance txs = some rows →
        (rows.map (fun row => row.2.1)).sum = calculate_total_revenue txs
        ∧ (rows.map (fun row => row.1)).Nodup
        ∧ (∀ t ∈ txs, (rows.map (fun row => row.1)).count t.region = 1) := by
  intro txs rows h
  cases txs with
  | nil => exact absurd h (by simp [region_performance])
  | cons a t =>
    have hrows : rows = insSort (fun x y : String × ℚ × Nat => decide (y.2.1 ≤ x.2.1))
        ((dedupFirst ((a :: t).map Tx.region)).map (regionRow (a :: t))) :=
      (Option.some.inj h).symm
    subst hrows
    have hperm := perm_insSort (fun x y : String × ℚ × Nat => decide (y.2.1 ≤ x.2.1))
      ((dedupFirst ((a :: t).map Tx.region)).map (regionRow (a :: t)))
    have hkeys : (((dedupFirst ((a :: t).map Tx.region)).map (regionRow (a :: t))).map
        (fun row => row.1)) = dedupFirst ((a :: t).map Tx.region) := by
      rw [List.map_map]
      exact List.map_id _
    refine ⟨?_, ?_, ?_⟩
    · rw [(hperm.map (fun row => row.2.1)).sum_eq, List.map_map]
      exact sum_over_groups Tx.region revenue (a :: t)
    · rw [(hperm.map (fun row => row.1)).nodup_iff, hkeys]
      exact nodup_dedupFirst _
    · intro tr htr
      rw [(hperm.map (fun row => row.1)).count_eq, hkeys]
      exact List.count_eq_one_of_mem (nodup_dedupFirst _)
        ((mem_dedupFirst _ _).mpr (List.mem_map_of_mem Tx.region htr))

/-- C4 witness: one "North" transaction of revenue 2 × 45000; the single
region row's Sales equals the total revenue. -/
theorem c4_region_sum_witness :
    region_performance [txLaptop] = some [(("North" : String), (90000 : ℚ), (1 : Nat))]
    ∧ (([(("North" : String), (90000 : ℚ), (1 : Nat))].map (fun row => row.2.1)).sum
        = calculate_total_revenue [txLaptop]) := by
  have h : region_performance [txLaptop]
      = some [(("North" : String), (90000 : ℚ), (1 : Nat))] := by
    simp +decide [region_performance, regionRow, dedupFirst, insSort, insertLe, revenue, txLaptop]
    norm_num
  exact ⟨h, (c4_region_sum_partition [txLaptop] [(("North" : String), (90000 : ℚ), (1 : Nat))] h).1⟩

/-- C5 counterexample: a supplied empty-string region argument applies no
filter at all — the record with region "North" is kept even though its
region differs from the supplied `""` (Python's `if region:` is false for
the empty string). -/
theorem c5_empty_region_counterexample :
    validate_and_filter [sRec1] (some "") none none = some ([sRec1], 0, ⟨1, 0, 0, 0, 1⟩)
    ∧ sRec1.region = some "North"
    ∧ ("North" : String) ≠ "" :=
  ⟨by decide, rfl, by decide⟩

/-- C5 (amended): whenever `validate_and_filter` returns, it has dropped and
counted each record failing strict validation, then kept exactly the
records matching a supplied non-empty region string (an empty or absent
region applies no filter), then exactly those within the inclusive amount
bounds; each summary counter counts its own step's removals. -/
theorem c5_filter_pipeline :
    ∀ (txs : List SalesRecord) (region : Option String) (minA maxA : Option ℚ)
      (out : List SalesRecord × Nat × FilterSummary),
      validate_and_filter txs region minA maxA = some out →
        out.2.1 = (txs.filter (fun t => !(isValidRec t))).length
        ∧ out.1 = applyAmountFilter minA maxA (applyRegionFilter region (txs.filter isValidRec))
        ∧ (∀ r, r ∈ out.1
            ↔ (r ∈ txs ∧ isValidRec r = true
               ∧ (∀ s, region = some s → s ≠ "" → r.region = some s)
               ∧ (∀ mn, minA = some mn → mn ≤ amountOf r)
               ∧ (∀ mx, maxA = some mx → amountOf r ≤ mx)))
        ∧ out.2.2 = ⟨txs.length, out.2.1,
            (txs.filter isValidRec).length
              - (applyRegionFilter region (txs.filter isValidRec)).length,
            (applyRegionFilter region (txs.filter isValidRec)).length - out.1.length,
            out.1.length⟩ := by
  intro txs region minA maxA out h
  simp only [validate_and_filter, validLoop_eq] at h
  cases hv : txs.filter isValidRec with
  | nil =>
    rw [hv] at h
    exact absurd h (by simp)
  | cons v0 vr =>
    rw [hv] at h
    have hout : out = (applyAmountFilter minA maxA (applyRegionFilter region (v0 :: vr)),
        (txs.filter (fun t => !(isValidRec t))).length,
        ⟨txs.length, (txs.filter (fun t => !(isValidRec t))).length,
         (v0 :: vr).length - (applyRegionFilter region (v0 :: vr)).length,
         (applyRegionFilter region (v0 :: vr)).length
           - (applyAmountFilter minA maxA (applyRegionFilter region (v0 :: vr))).length,
         (applyAmountFilter minA maxA (applyRegionFilter region (v0 :: vr))).length⟩) :=
      (Option.some.inj h).symm
    have ho1 : out.1 = applyAmountFilter minA maxA (applyRegionFilter region (v0 :: vr)) := by
      rw [hout]
    have ho21 : out.2.1 = (txs.filter (fun t => !(isValidRec t))).length := by
      rw [hout]
    have ho22 : out.2.2 = ⟨txs.length, (txs.filter (fun t => !(isValidRec t))).length,
        (v0 :: vr).length - (applyRegionFilter region (v0 :: vr)).length,
        (applyRegionFilter region (v0 :: vr)).length
          - (applyAmountFilter minA maxA (applyRegionFilter region (v0 :: vr))).length,
        (applyAmountFilter minA maxA (applyRegionFilter region (v0 :: vr))).length⟩ := by
      rw [hout]
    refine ⟨ho21, ?_, ?_, ?_⟩
    · rw [ho1]
    · intro r
      rw [ho1]
      have hmemA : r ∈ applyAmountFilter minA maxA (applyRegionFilter region (v0 :: vr))
          ↔ r ∈ applyRegionFilter region (v0 :: vr)
            ∧ (amountActive minA maxA = true → amountKeep minA maxA r = true) := by
        unfold applyAmountFilter
        by_cases ha : amountActive minA maxA = true
        · simp [ha, List.mem_filter]
        · simp [ha]
      have hmemR : r ∈ applyRegionFilter region (v0 :: vr)
          ↔ r ∈ (v0 :: vr)
            ∧ (regionActive region = true → regionKeep region r = true) := by
        unfold applyRegionFilter
        by_cases hra : regionActive region = true
        · simp [hra, List.mem_filter]
        · simp [hra]
      have hvmem : r ∈ (v0 :: vr) ↔ r ∈ txs ∧ isValidRec r = true := by
        rw [← hv]
        exact List.mem_filter
      have hregion : (regionActive region = true → regionKeep region r = true)
          ↔ (∀ s, region = some s → s ≠ "" → r.region = some s) := by
        rcases region with _ | s
        · simp [regionActive]
        · by_cases hs : s = ""
          · subst hs
            simp [regionActive]
          · cases hreg : r.region with
            | none =>
              simp only [regionActive, regionKeep, hreg, Option.getD_some, Option.getD_none]
              constructor
              · intro hk
                have := hk (by simp [hs])
                exact absurd (of_decide_eq_true this).symm hs
              · intro hall hactive
                exact absurd (hall s rfl hs) (by simp)
            | some x =>
              simp only [regionActive, regionKeep, hreg, Option.getD_some]
              constructor
              · intro hk s2 hs2 hne
                cases hs2
                have := hk (by simp [hs])
                rw [of_decide_eq_true this]
              · intro hall hactive
                have := hall s rfl hs
                cases this
                simp
      have hamount : (amountActive minA maxA = true → amountKeep minA maxA r = true)
          ↔ ((∀ mn, minA = some mn → mn ≤ amountOf r)
             ∧ (∀ mx, maxA = some mx → amountOf r ≤ mx)) := by
        rcases minA with _ | mn <;> rcases maxA with _ | mx <;>
          simp [amountActive, amountKeep]
      have hshape : (((r ∈ txs ∧ isValidRec r = true)
            ∧ (∀ s, region = some s → s ≠ "" → r.region = some s))
          ∧ ((∀ mn, minA = some mn → mn ≤ amountOf r)
             ∧ (∀ mx, maxA = some mx → amountOf r ≤ mx)))
          ↔ (r ∈ txs ∧ isValidRec r = true
             ∧ (∀ s, region = some s → s ≠ "" → r.region = some s)
             ∧ (∀ mn, minA = some mn → mn ≤ amountOf r)
             ∧ (∀ mx, maxA = some mx → amountOf r ≤ mx)) := by
        constructor
        · rintro ⟨⟨⟨h1, h2⟩, h3⟩, h4, h5⟩
          exact ⟨h1, h2, h3, h4, h5⟩
        · rintro ⟨h1, h2, h3, h4, h5⟩
          exact ⟨⟨⟨h1, h2⟩, h3⟩, h4, h5⟩
      exact hmemA.trans ((and_congr (hmemR.trans (and_congr hvmem hregion)) hamount).trans
        hshape)
    · rw [ho22, ho21, ho1]

/-- C5 witness: the spec's three-record scenario (1 invalid by Quantity=0,
region "North", min_amount 1000) returns final list `[sRec1]`,
invalid_count 1, filtered_by_region 0, filtered_by_amount 1. -/
theorem c5_filter_pipeline_witness :
    validate_and_filter scenarioRecords (some "North") (some 1000) none = some scenarioOut
    ∧ scenarioOut.2.1 = (scenarioRecords.filter (fun t => !(isValidRec t))).length := by
  have h : validate_and_filter scenarioRecords (some "North") (some 1000) none
      = some scenarioOut := by
    simp +decide [validate_and_filter, validLoop, isValidRec, hasRequired, idsOk, startsWithChar,
      amountOf, regionActive, regionKeep, amountActive, amountKeep, applyRegionFilter,
      applyAmountFilter, sRec1, sRec2, sRec3, scenarioRecords, scenarioOut]
  exact ⟨h, (c5_filter_pipeline scenarioRecords (some "North") (some 1000) none scenarioOut h).1⟩

/-- C10: whenever `validate_and_filter` returns, the summary is internally
consistent: total_input splits into invalid + the two filter removals + the
final count, and final_count is the length of the returned list. -/
theorem c10_summary_consistent :
    ∀ (txs : List SalesRecord) (region : Option String) (minA maxA : Option ℚ)
      (out : List SalesRecord × Nat × FilterSummary),
      validate_and_filter txs region minA maxA = some out →
        out.2.2.total_input
          = out.2.2.invalid + out.2.2.filtered_by_region + out.2.2.filtered_by_amount
            + out.2.2.final_count
        ∧ out.2.2.final_count = out.1.length
        ∧ out.2.2.total_input = txs.length
        ∧ out.2.2.invalid = out.2.1 := by
  intro txs region minA maxA out h
  simp only [validate_and_filter, validLoop_eq] at h
  cases hv : txs.filter isValidRec with
  | nil =>
    rw [hv] at h
    exact absurd h (by simp)
  | cons v0 vr =>
    rw [hv] at h
    have hout : out = (applyAmountFilter minA maxA (applyRegionFilter region (v0 :: vr)),
        (txs.filter (fun t => !(isValidRec t))).length,
        ⟨txs.length, (txs.filter (fun t => !(isValidRec t))).length,
         (v0 :: vr).length - (applyRegionFilter region (v0 :: vr)).length,
         (applyRegionFilter region (v0 :: vr)).length
           - (applyAmountFilter minA maxA (applyRegionFilter region (v0 :: vr))).length,
         (applyAmountFilter minA maxA (applyRegionFilter region (v0 :: vr))).length⟩) :=
      (Option.some.inj h).symm
    have hlenR : (applyRegionFilter region (v0 :: vr)).length ≤ (v0 :: vr).length := by
      unfold applyRegionFilter
      split
      · exact List.length_filter_le _ _
      · exact le_rfl
    have hlenA : (applyAmountFilter minA maxA (applyRegionFilter region (v0 :: vr))).length
        ≤ (applyRegionFilter region (v0 :: vr)).length := by
      unfold applyAmountFilter
      split
      · exact List.length_filter_le _ _
      · exact le_rfl
    have hlenT : (v0 :: vr).length + (txs.filter (fun t => !(isValidRec t))).length
        = txs.length := by
      rw [← hv]
      exact length_filter_not_add isValidRec txs
    rw [hout]
    refine ⟨?_, rfl, rfl, rfl⟩
    dsimp only
    omega

/-- C10 witness: one valid record with a region filter that keeps it — the
summary 1 = 0 + 0 + 0 + 1 is consistent and final_count matches the list. -/
theorem c10_summary_witness :
    validate_and_filter [sRec1] (some "North") none none = some regionOnlyOut
    ∧ (regionOnlyOut.2.2.total_input
        = regionOnlyOut.2.2.invalid + regionOnlyOut.2.2.filtered_by_region
          + regionOnlyOut.2.2.filtered_by_amount + regionOnlyOut.2.2.final_count
       ∧ regionOnlyOut.2.2.final_count = regionOnlyOut.1.length
       ∧ regionOnlyOut.2.2.total_input = ([sRec1] : List SalesRecord).length
       ∧ regionOnlyOut.2.2.invalid = regionOnlyOut.2.1) := by
  have h : validate_and_filter [sRec1] (some "North") none none = some regionOnlyOut := by
    decide
  exact ⟨h, c10_summary_consistent [sRec1] (some "North") none none regionOnlyOut h⟩
